import Mathlib

/-!
Verification of the audio-engine core of a browser audio editor/mixer.

The development shallowly embeds the TypeScript sources:
  * `src/utils/audio.ts` — trim, fades, normalize, noise gate, studio splice,
    WAV encoding, offline mixdown;
  * the application component (`updateHistory` / `handleUndo` / `handleRedo`
    and the studio branch of `startPlayback`);
  * `downsampledData` from `src/components/Waveform.tsx`.

Audio samples (JS `Float32Array` floats) are modelled as exact rationals;
times in seconds are rationals; `Math.floor` is the integer floor.  A JS
typed-array read out of range yields `undefined` (propagating as NaN); the
embedding reads 0 there, and every theorem below keeps the touched region
inside the buffer bounds, where both semantics agree sample-for-sample.
-/

namespace DinoAudio

/-- A Web Audio `AudioBuffer` as used by the sources: channel count, frame
count, sample rate, and per-channel sample data (channel-major). -/
structure AudioBuffer where
  numberOfChannels : ℕ
  length : ℕ
  sampleRate : ℕ
  data : List (List ℚ)
deriving DecidableEq, Repr, Inhabited

/-- The channels match `numberOfChannels` and every channel holds exactly
`length` frames — what `audioContext.createBuffer` always guarantees. -/
def AudioBuffer.WF (b : AudioBuffer) : Prop :=
  b.data.length = b.numberOfChannels ∧ ∀ ch ∈ b.data, ch.length = b.length

instance (b : AudioBuffer) : Decidable b.WF := by
  unfold AudioBuffer.WF; exact instDecidableAnd

/-- `buffer.duration = length / sampleRate` (seconds). -/
def AudioBuffer.duration (b : AudioBuffer) : ℚ := (b.length : ℚ) / (b.sampleRate : ℚ)

/-- Sample of channel `c` at frame `f`; 0 outside the buffer. -/
def sampleAt (b : AudioBuffer) (c f : ℕ) : ℚ := (b.data.getD c []).getD f 0

/-- `audioContext.createBuffer(ch, frames, rate)`: zero-initialized buffer. -/
def createBuffer (numberOfChannels frameCount sampleRate : ℕ) : AudioBuffer :=
  ⟨numberOfChannels, frameCount, sampleRate,
    List.replicate numberOfChannels (List.replicate frameCount 0)⟩

/-- Read `channelData[j]` for a (possibly signed) index: the sample when
`0 ≤ j < length`, 0 otherwise (see the NaN remark in the file header). -/
def getSample (ch : List ℚ) (j : ℤ) : ℚ :=
  if 0 ≤ j ∧ j < (ch.length : ℤ) then ch.getD j.toNat 0 else 0

/-- `TypedArray.subarray` index conversion: a negative index counts from the
end of the array, then both endpoints are clamped to `[0, length]`. -/
def relIndex (n : ℕ) (i : ℤ) : ℕ :=
  if i < 0 then ((n : ℤ) + i).toNat else min i.toNat n

/-- `channelData.subarray(s, e)` as a list. -/
def jsSubarray (ch : List ℚ) (s e : ℤ) : List ℚ :=
  (ch.take (relIndex ch.length e)).drop (relIndex ch.length s)

/-- `trimAudioBuffer` (src/utils/audio.ts): floors both endpoints to frame
offsets, throws when the frame count is ≤ 0, otherwise copies
`subarray(startOffset, endOffset)` of every channel into a fresh
zero-initialized buffer (frames past the source end therefore stay 0). -/
def trimAudioBuffer (buffer : AudioBuffer) (start e : ℚ) : Except String AudioBuffer :=
  let startOffset : ℤ := ⌊start * buffer.sampleRate⌋
  let endOffset : ℤ := ⌊e * buffer.sampleRate⌋
  let frameCount : ℤ := endOffset - startOffset
  if frameCount ≤ 0 then
    .error "Invalid trim range. End time must be after start time."
  else
    .ok ⟨buffer.numberOfChannels, frameCount.toNat, buffer.sampleRate,
      buffer.data.map (fun ch =>
        jsSubarray ch startOffset endOffset ++
        List.replicate
          (frameCount.toNat - (jsSubarray ch startOffset endOffset).length) 0)⟩

/-- `copyToChannel` into a fresh channel of `frameCount` zeros: the source is
written from offset 0 and clamped; missing frames stay 0. -/
def copyInto (frameCount : ℕ) (src : List ℚ) : List ℚ :=
  src.take frameCount ++ List.replicate (frameCount - src.length) 0

/-- `cloneAudioBuffer` (src/utils/audio.ts): `createBuffer` with the source
geometry, then `copyToChannel` of every source channel. -/
def cloneAudioBuffer (buffer : AudioBuffer) : AudioBuffer :=
  ⟨buffer.numberOfChannels, buffer.length, buffer.sampleRate,
    (List.range buffer.numberOfChannels).map (fun i =>
      copyInto buffer.length (buffer.data.getD i []))⟩

/-- `applyFadeIn` (src/utils/audio.ts): clone, then multiply every sample of
every channel inside `[startSample, endSample)` by `(j - startSample)/length`
where `endSample = min(startSample + fadeSamples, selectionEndSample)`. -/
def applyFadeIn (buffer : AudioBuffer) (selectionStart selectionEnd duration : ℚ) :
    AudioBuffer :=
  let newBuffer := cloneAudioBuffer buffer
  let startSample : ℤ := ⌊selectionStart * (newBuffer.sampleRate : ℚ)⌋
  let selectionEndSample : ℤ := ⌊selectionEnd * (newBuffer.sampleRate : ℚ)⌋
  let fadeSamples : ℤ := ⌊duration * (newBuffer.sampleRate : ℚ)⌋
  let endSample : ℤ := min (startSample + fadeSamples) selectionEndSample
  let length : ℤ := endSample - startSample
  if length ≤ 0 then newBuffer
  else
    { newBuffer with data := newBuffer.data.map (fun ch =>
        ch.mapIdx (fun j x =>
          if startSample ≤ (j : ℤ) ∧ (j : ℤ) < endSample then
            x * ((((j : ℤ) - startSample : ℤ) : ℚ) / ((length : ℤ) : ℚ))
          else x)) }

/-- `applyFadeOut` (src/utils/audio.ts): symmetric ramp `1 → 0` on
`[max(selectionStartSample, endSample - fadeSamples), endSample)`. -/
def applyFadeOut (buffer : AudioBuffer) (selectionStart selectionEnd duration : ℚ) :
    AudioBuffer :=
  let newBuffer := cloneAudioBuffer buffer
  let selectionStartSample : ℤ := ⌊selectionStart * (newBuffer.sampleRate : ℚ)⌋
  let endSample : ℤ := ⌊selectionEnd * (newBuffer.sampleRate : ℚ)⌋
  let fadeSamples : ℤ := ⌊duration * (newBuffer.sampleRate : ℚ)⌋
  let startSample : ℤ := max selectionStartSample (endSample - fadeSamples)
  let length : ℤ := endSample - startSample
  if length ≤ 0 then newBuffer
  else
    { newBuffer with data := newBuffer.data.map (fun ch =>
        ch.mapIdx (fun j x =>
          if startSample ≤ (j : ℤ) ∧ (j : ℤ) < endSample then
            x * (1 - (((j : ℤ) - startSample : ℤ) : ℚ) / ((length : ℤ) : ℚ))
          else x)) }

/-- Signed index range `[s, e)` walked by the `for (let j = s; j < e; j++)`
loops of the sources. -/
def idxList (s e : ℤ) : List ℤ :=
  (List.range (e - s).toNat).map (fun k : ℕ => s + (k : ℤ))

/-- One channel step of the peak scan of `applyNormalize`:
`peak = Math.max(peak, Math.abs(channelData[j]))` over the region. -/
def chanPeak (s e : ℤ) (p : ℚ) (ch : List ℚ) : ℚ :=
  (idxList s e).foldl (fun q j => max q |getSample ch j|) p

/-- The peak scan of `applyNormalize`: over all channels, starting from 0. -/
def regionPeak (b : AudioBuffer) (s e : ℤ) : ℚ := b.data.foldl (chanPeak s e) 0

/-- `applyNormalize` (src/utils/audio.ts): clone; scan the selected region of
all channels for the peak `max |sample|`; if the peak is 0 return the clone,
otherwise multiply every in-region sample by `gain = 1/peak`. -/
def applyNormalize (buffer : AudioBuffer) (start e : ℚ) : AudioBuffer :=
  let newBuffer := cloneAudioBuffer buffer
  let startSample : ℤ := ⌊start * (newBuffer.sampleRate : ℚ)⌋
  let endSample : ℤ := ⌊e * (newBuffer.sampleRate : ℚ)⌋
  let peak := regionPeak newBuffer startSample endSample
  if peak = 0 then newBuffer
  else
    let gain : ℚ := 1 / peak
    { newBuffer with data := newBuffer.data.map (fun ch =>
        ch.mapIdx (fun j x =>
          if startSample ≤ (j : ℤ) ∧ (j : ℤ) < endSample then x * gain else x)) }

/-- `applyNoiseReduction` (src/utils/audio.ts): clone, then zero every
in-region sample whose absolute value is below the 0.02 threshold. -/
def applyNoiseReduction (buffer : AudioBuffer) (start e : ℚ) : AudioBuffer :=
  let newBuffer := cloneAudioBuffer buffer
  let startSample : ℤ := ⌊start * (newBuffer.sampleRate : ℚ)⌋
  let endSample : ℤ := ⌊e * (newBuffer.sampleRate : ℚ)⌋
  let threshold : ℚ := 0.02
  { newBuffer with data := newBuffer.data.map (fun ch =>
      ch.mapIdx (fun j x =>
        if (startSample ≤ (j : ℤ) ∧ (j : ℤ) < endSample) ∧ |x| < threshold then 0
        else x)) }

/-- `target.set(src, off)` on a channel: overwrite `target` from `off` with
`src`, clamped to the target length. -/
def writeAt (target : List ℚ) (off : ℕ) (src : List ℚ) : List ℚ :=
  (List.range target.length).map (fun k =>
    if off ≤ k ∧ k < off + src.length then src.getD (k - off) 0 else target.getD k 0)

/-- Splice-back step of `applyStudioEffect`: write every channel of the
rendered buffer into the clone of the original at `startSample`. -/
def spliceRendered (clone rendered : AudioBuffer) (startSample : ℕ) : AudioBuffer :=
  { clone with data := clone.data.mapIdx (fun i ch =>
      writeAt ch startSample (rendered.data.getD i [])) }

/-- `applyStudioEffect` (src/utils/audio.ts): trim the selection, run it
through the offline compressor/EQ chain — abstracted here as an arbitrary
`render` function, since the chain is executed by the platform's
`OfflineAudioContext` — then splice the rendered audio into a clone of the
original buffer at the selection's start sample. -/
def applyStudioEffect (render : AudioBuffer → AudioBuffer) (buffer : AudioBuffer)
    (start e : ℚ) : Except String AudioBuffer :=
  match trimAudioBuffer buffer start e with
  | .error msg => .error msg
  | .ok trimmedBuffer =>
    let renderedBuffer := render trimmedBuffer
    let originalBufferClone := cloneAudioBuffer buffer
    let startSample : ℤ := ⌊start * (buffer.sampleRate : ℚ)⌋
    .ok (spliceRendered originalBufferClone renderedBuffer startSample.toNat)

/-- Two little-endian bytes of `v mod 2^16` (`DataView.setUint16 LE`). -/
def le16 (v : ℕ) : List ℕ := [v % 256, v / 256 % 256]

/-- Four little-endian bytes of `v mod 2^32` (`DataView.setUint32 LE`). -/
def le32 (v : ℕ) : List ℕ := [v % 256, v / 256 % 256, v / 65536 % 256, v / 16777216 % 256]

/-- The per-sample conversion of `floatTo16BitPCM`: clamp to `[-1, 1]`; a
negative value scales by 0x8000, a non-negative one by 0x7FFF; `setInt16`
truncates the result toward zero. -/
def pcm16 (s : ℚ) : ℤ :=
  let c := max (-1) (min 1 s)
  if c < 0 then ⌈c * 32768⌉ else ⌊c * 32767⌋

/-- `setInt16 LE`: the value is reduced mod 2^16 and stored as two bytes. -/
def int16Bytes (v : ℤ) : List ℕ := le16 (v.emod 65536).toNat

/-- The interleaving loop of `audioBufferToWavBlob`: frame-major, channels
inside a frame in order. -/
def interleave (b : AudioBuffer) : List ℚ :=
  ((List.range b.length).map (fun i =>
    (List.range b.numberOfChannels).map (fun j => sampleAt b j i))).flatten

/-- `floatTo16BitPCM` over an interleaved sample list. -/
def floatTo16BitPCM (input : List ℚ) : List ℕ :=
  (input.map (fun s => int16Bytes (pcm16 s))).flatten

/-- `audioBufferToWavBlob` (src/utils/audio.ts): the 44-byte RIFF/WAVE PCM16
header followed by the interleaved 16-bit samples, as the exact byte list of
the produced blob. -/
def audioBufferToWavBlob (buffer : AudioBuffer) : List ℕ :=
  let numOfChan := buffer.numberOfChannels
  let totalLength := buffer.length * numOfChan * 2 + 44
  [82, 73, 70, 70] ++ le32 (totalLength - 8) ++ [87, 65, 86, 69] ++
  [102, 109, 116, 32] ++ le32 16 ++ le16 1 ++ le16 numOfChan ++
  le32 buffer.sampleRate ++ le32 (buffer.sampleRate * 2 * numOfChan) ++
  le16 (numOfChan * 2) ++ le16 16 ++ [100, 97, 116, 97] ++
  le32 (totalLength - 44) ++ floatTo16BitPCM (interleave buffer)

/-- Editor history state: the snapshot list, the current index (-1 when
empty), and the currently displayed buffer. -/
structure EditorState where
  history : List AudioBuffer
  historyIndex : ℤ
  audioBuffer : Option AudioBuffer
deriving DecidableEq, Repr

/-- History state right after loading: empty, index -1. -/
def initialEditorState : EditorState := ⟨[], -1, none⟩

/-- `updateHistory` (application component): slice the history up to and
including the current index, append the new buffer, point the index at the
new last entry, and make the committed buffer current. -/
def updateHistory (s : EditorState) (newBuffer : AudioBuffer) : EditorState :=
  let newHistory := s.history.take (s.historyIndex + 1).toNat ++ [newBuffer]
  ⟨newHistory, (newHistory.length : ℤ) - 1, some newBuffer⟩

/-- `handleUndo`: only acts when `historyIndex > 0`. -/
def handleUndo (s : EditorState) : EditorState :=
  if s.historyIndex > 0 then
    let newIndex := s.historyIndex - 1
    ⟨s.history, newIndex, s.history[newIndex.toNat]?⟩
  else s

/-- `handleRedo`: only acts when `historyIndex < history.length - 1`. -/
def handleRedo (s : EditorState) : EditorState :=
  if s.historyIndex < (s.history.length : ℤ) - 1 then
    let newIndex := s.historyIndex + 1
    ⟨s.history, newIndex, s.history[newIndex.toNat]?⟩
  else s

/-- A studio track (src/types.ts), omitting the UI-only `file`/`color`. -/
structure Track where
  id : String
  buffer : AudioBuffer
  startTime : ℚ
  volume : ℚ
  isMuted : Bool
deriving DecidableEq, Repr

/-- One scheduled `AudioBufferSourceNode` of the studio playback: the code
issues either `source.start(now + when, 0)` (a delay, offset 0) or
`source.start(0, offsetInTrack)` (immediate, an in-track offset). -/
structure ScheduledSource where
  track : Track
  delay : ℚ
  offsetInTrack : ℚ
deriving DecidableEq, Repr

/-- The per-track body of the `tracks.forEach` of the studio branch of
`startPlayback` (application component): skip a muted track and a track
already finished at the start offset; schedule a future track with a delay
and an in-progress track immediately from `startOffset - track.startTime`. -/
def studioStep (startOffset : ℚ) (acc : List ScheduledSource) (track : Track) :
    List ScheduledSource :=
  if track.isMuted then acc
  else
    let trackEnd := track.startTime + track.buffer.duration
    if trackEnd ≤ startOffset then acc
    else if track.startTime ≥ startOffset then
      acc ++ [⟨track, track.startTime - startOffset, 0⟩]
    else
      acc ++ [⟨track, 0, startOffset - track.startTime⟩]

/-- The studio branch of `startPlayback`: walk the tracks accumulating the
scheduled sources. -/
def startPlaybackStudio (tracks : List Track) (startOffset : ℚ) : List ScheduledSource :=
  tracks.foldl (studioStep startOffset) []

/-- Modelled from the spec: the contribution of one track inside the offline
mixdown graph, which is executed by the platform's `OfflineAudioContext`
(absent from the sources).  A source started at `startTime` plays its buffer
scaled by its gain from frame `round(startTime * sampleRate)`; a mono track
is up-mixed to both stereo channels. -/
def trackSampleAt (track : Track) (sampleRate : ℕ) (c f : ℕ) : ℚ :=
  let startFrame : ℤ := round (track.startTime * (sampleRate : ℚ))
  getSample (track.buffer.data.getD (min c (track.buffer.numberOfChannels - 1)) [])
    ((f : ℤ) - startFrame)

/-- Modelled from the spec: adding one connected source into the offline
destination — every output sample gains `volume * trackSampleAt`. -/
def mixTrack (out : AudioBuffer) (track : Track) (sampleRate : ℕ) : AudioBuffer :=
  { out with data := out.data.mapIdx (fun c ch =>
      ch.mapIdx (fun f v => v + track.volume * trackSampleAt track sampleRate c f)) }

/-- The per-track body of the duration scan of `renderMix`:
`if (end > totalDuration) totalDuration = end`. -/
def maxEndStep (td : ℚ) (track : Track) : ℚ :=
  let e := track.startTime + track.buffer.duration
  if e > td then e else td

/-- The per-track body of the mixing loop of `renderMix`: a muted track is
skipped, every other track is connected and rendered in. -/
def mixStep (sampleRate : ℕ) (out : AudioBuffer) (track : Track) : AudioBuffer :=
  if track.isMuted then out else mixTrack out track sampleRate

/-- `renderMix` (src/utils/audio.ts): error on an empty track list; otherwise
compute `totalDuration = max(startTime + duration) + 0.5`, allocate a stereo
offline context of `ceil(totalDuration * sampleRate)` frames, connect every
non-muted track through its gain node, and render. -/
def renderMix (tracks : List Track) (sampleRate : ℕ) : Except String AudioBuffer :=
  if tracks.isEmpty then .error "No tracks to render"
  else
    let totalDuration : ℚ := tracks.foldl maxEndStep 0 + 0.5
    let frames := (⌈totalDuration * (sampleRate : ℚ)⌉).toNat
    .ok (tracks.foldl (mixStep sampleRate) (createBuffer 2 frames sampleRate))

/-- `downsampledData` (src/components/Waveform.tsx), generalized over the
bucket count (`samples = Math.floor(dimensions.width)` in the source): one
mean of `|sample|` per block of `floor(frames / buckets)` channel-0 frames. -/
def downsamplePeaks (audioBuffer : AudioBuffer) (bucketCount : ℕ) : List ℚ :=
  let rawData := audioBuffer.data.getD 0 []
  let blockSize := rawData.length / bucketCount
  (List.range bucketCount).map (fun i =>
    let blockStart := blockSize * i
    ((List.range blockSize).map (fun j => |rawData.getD (blockStart + j) 0|)).sum
      / ((blockSize : ℕ) : ℚ))

/-- Allocation of one fresh buffer on the heap of live `AudioBuffer`s;
returns the new heap and the index of the fresh buffer. -/
def heapAlloc (heap : List AudioBuffer) (b : AudioBuffer) : List AudioBuffer × ℕ :=
  (heap ++ [b], heap.length)

/-- Heap-level `trimAudioBuffer`: the throw happens before any allocation; on
success a fresh zero buffer is allocated and then filled in place. -/
def trimH (heap : List AudioBuffer) (i : ℕ) (start e : ℚ) :
    Except String (List AudioBuffer × ℕ) :=
  let buffer := heap.getD i default
  match trimAudioBuffer buffer start e with
  | .error msg => .error msg
  | .ok result =>
    let alloc := heapAlloc heap
      (createBuffer buffer.numberOfChannels result.length buffer.sampleRate)
    .ok (alloc.1.set alloc.2 result, alloc.2)

/-- Heap-level `applyFadeIn`: allocate the clone, then mutate it in place. -/
def fadeInH (heap : List AudioBuffer) (i : ℕ) (s e d : ℚ) : List AudioBuffer × ℕ :=
  let buffer := heap.getD i default
  let alloc := heapAlloc heap (cloneAudioBuffer buffer)
  (alloc.1.set alloc.2 (applyFadeIn buffer s e d), alloc.2)

/-- Heap-level `applyFadeOut`. -/
def fadeOutH (heap : List AudioBuffer) (i : ℕ) (s e d : ℚ) : List AudioBuffer × ℕ :=
  let buffer := heap.getD i default
  let alloc := heapAlloc heap (cloneAudioBuffer buffer)
  (alloc.1.set alloc.2 (applyFadeOut buffer s e d), alloc.2)

/-- Heap-level `applyNormalize`. -/
def normalizeH (heap : List AudioBuffer) (i : ℕ) (s e : ℚ) : List AudioBuffer × ℕ :=
  let buffer := heap.getD i default
  let alloc := heapAlloc heap (cloneAudioBuffer buffer)
  (alloc.1.set alloc.2 (applyNormalize buffer s e), alloc.2)

/-- Heap-level `applyNoiseReduction`. -/
def noiseGateH (heap : List AudioBuffer) (i : ℕ) (s e : ℚ) : List AudioBuffer × ℕ :=
  let buffer := heap.getD i default
  let alloc := heapAlloc heap (cloneAudioBuffer buffer)
  (alloc.1.set alloc.2 (applyNoiseReduction buffer s e), alloc.2)

/-- Heap-level `applyStudioEffect`: the trim throws before any allocation; on
success the trimmed buffer, the offline-rendered buffer and the clone of the
original are allocated in turn, and the rendered audio is spliced into the
clone in place. -/
def studioEffectH (render : AudioBuffer → AudioBuffer) (heap : List AudioBuffer)
    (i : ℕ) (start e : ℚ) : Except String (List AudioBuffer × ℕ) :=
  let buffer := heap.getD i default
  match trimAudioBuffer buffer start e with
  | .error msg => .error msg
  | .ok trimmedBuffer =>
    let a1 := heapAlloc heap
      (createBuffer trimmedBuffer.numberOfChannels trimmedBuffer.length
        trimmedBuffer.sampleRate)
    let h1 := a1.1.set a1.2 trimmedBuffer
    let a2 := heapAlloc h1 (render trimmedBuffer)
    let a3 := heapAlloc a2.1 (cloneAudioBuffer buffer)
    let startSample : ℤ := ⌊start * (buffer.sampleRate : ℚ)⌋
    .ok (a3.1.set a3.2
      (spliceRendered (cloneAudioBuffer buffer) (render trimmedBuffer) startSample.toNat),
      a3.2)

/-- Concrete buffers used by the closed scenario theorems below. -/
def bufA : AudioBuffer := ⟨1, 1, 1, [[1]]⟩

def bufB : AudioBuffer := ⟨1, 1, 1, [[2]]⟩

def bufC : AudioBuffer := ⟨1, 1, 1, [[3]]⟩

/-- History scenario states: commit A, commit B, undo, commit C. -/
def histS1 : EditorState := updateHistory initialEditorState bufA

def histS2 : EditorState := updateHistory histS1 bufB

def histS3 : EditorState := handleUndo histS2

def histS4 : EditorState := updateHistory histS3 bufC

/-- Track A of the scheduling scenario: startTime 0, duration 5 s. -/
def trackA : Track := ⟨"A", createBuffer 1 5 1, 0, 1, false⟩

/-- Track B of the scheduling scenario: startTime 3, duration 4 s. -/
def trackB : Track := ⟨"B", createBuffer 1 4 1, 3, 1, false⟩

/-- A mono 44100 Hz 2-frame buffer, the WAV-header scenario input. -/
def wavScenarioBuffer : AudioBuffer := ⟨1, 2, 44100, [[1/2, -1/2]]⟩

/-- A one-frame buffer of duration 1 s, the trim counterexample input. -/
def unitBuffer : AudioBuffer := ⟨1, 1, 1, [[1/2]]⟩

/-- A 4-frame all-ones buffer used to instantiate the fade theorems. -/
def fadeScenarioBuffer : AudioBuffer := ⟨1, 4, 1, [[1, 1, 1, 1]]⟩

/-- A 2-frame buffer of peak 1/2 used to instantiate normalize. -/
def normScenarioBuffer : AudioBuffer := ⟨1, 2, 1, [[1/2, 1/4]]⟩

/-- A 4-frame buffer used to instantiate the downsampling theorem. -/
def peaksScenarioBuffer : AudioBuffer := ⟨1, 4, 1, [[1, -1, 1/2, -1/2]]⟩

instance : DecidableEq (Except String AudioBuffer) := fun a b =>
  match a, b with
  | .error x, .error y =>
    if h : x = y then .isTrue (by rw [h]) else .isFalse (by simp [h])
  | .ok x, .ok y =>
    if h : x = y then .isTrue (by rw [h]) else .isFalse (by simp [h])
  | .error _, .ok _ => .isFalse (by simp)
  | .ok _, .error _ => .isFalse (by simp)

/-- C5: the history manager.  `commit` (= `updateHistory`) drops every entry
after the current index, appends the new buffer and points the index at the
new last entry; `undo` at index ≤ 0 and `redo` at index ≥ length - 1 are
no-ops; and the scenario commit(A), commit(B), undo, commit(C) leaves A
current after the undo, discards B on the commit of C, and makes the
subsequent redo a no-op with C still current. -/
theorem history_commit_undo_redo_spec :
    (∀ (s : EditorState) (b : AudioBuffer),
      (updateHistory s b).history = s.history.take (s.historyIndex + 1).toNat ++ [b] ∧
      (updateHistory s b).historyIndex = ((updateHistory s b).history.length : ℤ) - 1 ∧
      (updateHistory s b).audioBuffer = some b) ∧
    (∀ s : EditorState, s.historyIndex ≤ 0 → handleUndo s = s) ∧
    (∀ s : EditorState, (s.history.length : ℤ) - 1 ≤ s.historyIndex → handleRedo s = s) ∧
    histS3.audioBuffer = some bufA ∧
    histS4.history = [bufA, bufC] ∧
    histS4.audioBuffer = some bufC ∧
    handleRedo histS4 = histS4 := by
  refine ⟨fun s b => ⟨rfl, rfl, rfl⟩, fun s h => ?_, fun s h => ?_, ?_, ?_, ?_, ?_⟩
  · unfold handleUndo
    rw [if_neg (by omega)]
  · unfold handleRedo
    rw [if_neg (by omega)]
  · with_unfolding_all decide
  · with_unfolding_all decide
  · with_unfolding_all decide
  · with_unfolding_all decide

/-- Closed instance of `history_commit_undo_redo_spec`: undo on the empty
history is a no-op. -/
theorem history_commit_undo_redo_spec_witness :
    handleUndo initialEditorState = initialEditorState :=
  history_commit_undo_redo_spec.2.1 initialEditorState (by decide)

/-- The scheduling fold of the studio branch, with a generalized
accumulator, rephrased as filter-then-map. -/
theorem studio_fold_eq (P : ℚ) (tracks : List Track) :
    ∀ acc : List ScheduledSource,
      tracks.foldl (studioStep P) acc =
      acc ++ (tracks.filter
          (fun t => !t.isMuted && decide (P < t.startTime + t.buffer.duration))).map
        (fun t => if P ≤ t.startTime then ⟨t, t.startTime - P, 0⟩
          else ⟨t, 0, P - t.startTime⟩) := by
  induction tracks with
  | nil => intro acc; simp
  | cons t ts ih =>
    intro acc
    rw [List.foldl_cons]
    by_cases hm : t.isMuted
    · rw [show studioStep P acc t = acc by simp [studioStep, hm]]
      rw [List.filter_cons_of_neg (by simp [hm])]
      exact ih acc
    · by_cases hend : t.startTime + t.buffer.duration ≤ P
      · rw [show studioStep P acc t = acc by simp [studioStep, hm, hend]]
        rw [List.filter_cons_of_neg (by simp [hm, not_lt.mpr hend])]
        exact ih acc
      · rw [List.filter_cons_of_pos (by simp [hm, not_le.mp hend]), List.map_cons]
        by_cases hst : P ≤ t.startTime
        · rw [show studioStep P acc t = acc ++ [⟨t, t.startTime - P, 0⟩]
            by simp [studioStep, hm, hend, hst]]
          rw [if_pos hst, ih]
          simp
        · rw [show studioStep P acc t = acc ++ [⟨t, 0, P - t.startTime⟩]
            by simp [studioStep, hm, hend, hst]]
          rw [if_neg hst, ih]
          simp

/-- C6: studio multi-track scheduling at start position `P`.  A track is
scheduled iff it is not muted and `startTime + duration > P`; a scheduled
track with `startTime ≥ P` gets delay `startTime - P` and in-track offset 0,
one with `startTime < P` starts immediately at in-track offset
`P - startTime`.  In the scenario (A: start 0 / duration 5, B: start 3 /
duration 4, P = 4) both play immediately, A from offset 4, B from offset 1. -/
theorem studio_scheduling_spec :
    (∀ (tracks : List Track) (P : ℚ),
      startPlaybackStudio tracks P =
        (tracks.filter
            (fun t => !t.isMuted && decide (P < t.startTime + t.buffer.duration))).map
          (fun t => if P ≤ t.startTime then ⟨t, t.startTime - P, 0⟩
            else ⟨t, 0, P - t.startTime⟩)) ∧
    startPlaybackStudio [trackA, trackB] 4 =
      [⟨trackA, 0, 4⟩, ⟨trackB, 0, 1⟩] := by
  constructor
  · intro tracks P
    unfold startPlaybackStudio
    rw [studio_fold_eq]
    simp
  · with_unfolding_all decide

/-- Element `k` of one trimmed channel: `subarray(a, bb)` of the channel,
zero-padded to `bb - a` frames, reads the source at `a + k` when that frame
exists and 0 otherwise. -/
theorem padded_slice_getD (ch : List ℚ) (a bb k : ℕ) (hab : a < bb) :
    ((ch.take (min bb ch.length)).drop (min a ch.length) ++
      List.replicate ((bb - a) -
        ((ch.take (min bb ch.length)).drop (min a ch.length)).length) 0).getD k 0 =
    if k < bb - a ∧ a + k < ch.length then ch.getD (a + k) 0 else 0 := by
  have hclen : ((ch.take (min bb ch.length)).drop (min a ch.length)).length =
      min bb ch.length - min a ch.length := by
    simp
  rw [List.getD_eq_getElem?_getD, List.getElem?_append]
  by_cases hk : k < ((ch.take (min bb ch.length)).drop (min a ch.length)).length
  · rw [if_pos hk, List.getElem?_drop, List.getElem?_take_of_lt (by omega)]
    have han : a < ch.length := by omega
    have hman : min a ch.length = a := by omega
    rw [hman]
    have hsome : ch[a + k]? = some (ch.getD (a + k) 0) := by
      rw [List.getD_eq_getElem?_getD, List.getElem?_eq_getElem (by omega)]
      simp
    rw [hsome, if_pos (by omega)]
    simp
  · rw [if_neg hk, if_neg (by omega), List.getElem?_replicate]
    by_cases hrep : k - ((ch.take (min bb ch.length)).drop (min a ch.length)).length <
        (bb - a) - ((ch.take (min bb ch.length)).drop (min a ch.length)).length
    · rw [if_pos hrep]; simp
    · rw [if_neg hrep]; simp

/-- `getD _ []` through a `map`, in-range case. -/
theorem getD_map_get {α β : Type} (f : α → List β) (l : List α) (c : ℕ)
    (hc : c < l.length) : (l.map f).getD c [] = f l[c] := by
  rw [List.getD_eq_getElem?_getD, List.getElem?_map, List.getElem?_eq_getElem hc]
  rfl

/-- `getD _ []` through a `map`, out-of-range case. -/
theorem getD_map_nil {α β : Type} (f : α → List β) (l : List α) (c : ℕ)
    (hc : ¬c < l.length) : (l.map f).getD c [] = [] := by
  rw [List.getD_eq_getElem?_getD, List.getElem?_eq_none (by simpa using hc)]
  rfl

/-- `getD` agrees with `getElem` in range. -/
theorem getD_eq_getElem_of_lt {α : Type} (l : List α) (d : α) (c : ℕ)
    (hc : c < l.length) : l.getD c d = l[c] := by
  rw [List.getD_eq_getElem?_getD, List.getElem?_eq_getElem hc]
  rfl

/-- `getD` yields the default out of range. -/
theorem getD_eq_default_of_ge {α : Type} (l : List α) (d : α) (c : ℕ)
    (hc : ¬c < l.length) : l.getD c d = d := by
  rw [List.getD_eq_getElem?_getD, List.getElem?_eq_none (by simpa using hc)]
  rfl

/-- Content of a successful trim, shared by the explicit and the implicit
trim claims: the result holds `eo - so` frames per channel, frame `k` being
source frame `so + k` when it exists and silence otherwise. -/
theorem trim_ok_content (b : AudioBuffer) (s e : ℚ) (so eo : ℤ)
    (hso : so = ⌊s * (b.sampleRate : ℚ)⌋) (heo : eo = ⌊e * (b.sampleRate : ℚ)⌋)
    (hwf : b.WF) (h0 : 0 ≤ so) (hlt : so < eo) :
    ∃ out, trimAudioBuffer b s e = .ok out ∧
      out.numberOfChannels = b.numberOfChannels ∧
      out.sampleRate = b.sampleRate ∧
      out.length = (eo - so).toNat ∧
      ∀ c k : ℕ, sampleAt out c k =
        if k < (eo - so).toNat ∧ so.toNat + k < b.length then
          sampleAt b c (so.toNat + k) else 0 := by
  unfold trimAudioBuffer
  rw [← hso, ← heo, if_neg (by omega)]
  refine ⟨_, rfl, rfl, rfl, rfl, fun c k => ?_⟩
  unfold sampleAt
  dsimp only
  by_cases hc : c < b.data.length
  · rw [getD_map_get _ _ _ hc, getD_eq_getElem_of_lt _ _ _ hc]
    have hch : (b.data[c]).length = b.length := hwf.2 _ (List.getElem_mem hc)
    have hrel_s : relIndex (b.data[c]).length so = min so.toNat (b.data[c]).length := by
      unfold relIndex
      rw [if_neg (by omega)]
    have hrel_e : relIndex (b.data[c]).length eo = min eo.toNat (b.data[c]).length := by
      unfold relIndex
      rw [if_neg (by omega)]
    unfold jsSubarray
    rw [hrel_s, hrel_e]
    have htn : (eo - so).toNat = eo.toNat - so.toNat := by omega
    rw [htn]
    have hps := padded_slice_getD b.data[c] so.toNat eo.toNat k (by omega)
    rw [hch] at hps
    simpa [hch] using hps
  · rw [getD_map_nil _ _ _ hc, getD_eq_default_of_ge _ _ _ hc]
    simp

/-- C2 counterexample: the one-frame 1 Hz buffer has duration 1 s, so the
selection `[0, 2]` lies outside the buffer bounds, yet `trim` succeeds
instead of failing with the claimed `InvalidRange`. -/
theorem trim_out_of_bounds_counterexample :
    unitBuffer.duration < 2 ∧ (0 : ℚ) ≤ 0 ∧ (0 : ℚ) < 2 ∧
    Except.isOk (trimAudioBuffer unitBuffer 0 2) = true := by
  refine ⟨?_, le_refl 0, ?_, ?_⟩ <;> with_unfolding_all decide

/-- C2 (amended): `trim(buffer, start, end)` fails — with the invalid-range
error, the source untouched — iff `⌊end*sr⌋ - ⌊start*sr⌋ ≤ 0`; otherwise it
returns a fresh buffer of `⌊end*sr⌋ - ⌊start*sr⌋` frames whose frame `k` is
source frame `⌊start*sr⌋ + k` when that exists and 0 (silent padding)
otherwise. -/
theorem trim_fail_iff_spec (b : AudioBuffer) (s e : ℚ) (so eo : ℤ)
    (hso : so = ⌊s * (b.sampleRate : ℚ)⌋) (heo : eo = ⌊e * (b.sampleRate : ℚ)⌋)
    (hwf : b.WF) (h0 : 0 ≤ so) :
    ((∃ msg, trimAudioBuffer b s e = .error msg) ↔ eo - so ≤ 0) ∧
    (0 < eo - so →
      ∃ out, trimAudioBuffer b s e = .ok out ∧
        out.numberOfChannels = b.numberOfChannels ∧
        out.sampleRate = b.sampleRate ∧
        out.length = (eo - so).toNat ∧
        ∀ c k : ℕ, sampleAt out c k =
          if k < (eo - so).toNat ∧ so.toNat + k < b.length then
            sampleAt b c (so.toNat + k) else 0) := by
  constructor
  · unfold trimAudioBuffer
    rw [← hso, ← heo]
    by_cases hle : eo - so ≤ 0
    · rw [if_pos hle]
      exact ⟨fun _ => hle, fun _ => ⟨_, rfl⟩⟩
    · rw [if_neg hle]
      exact ⟨fun ⟨msg, hmsg⟩ => absurd hmsg (by simp), fun hcon => absurd hcon hle⟩
  · intro hpos
    exact trim_ok_content b s e so eo hso heo hwf h0 (by omega)

/-- Closed instance of `trim_fail_iff_spec` at the unit buffer and the
selection `[0, 2]`. -/
theorem trim_fail_iff_spec_witness :
    (∃ msg, trimAudioBuffer unitBuffer 0 2 = .error msg) ↔ (2 : ℤ) - 0 ≤ 0 :=
  (trim_fail_iff_spec unitBuffer 0 2 0 2 (by with_unfolding_all decide)
    (by with_unfolding_all decide) (by decide) (by decide)).1

/-- C10: when `0 ≤ start < end` and `⌊start*sr⌋ < ⌊end*sr⌋`, `trim` succeeds
even if the selection runs past the buffer end: the result has
`⌊end*sr⌋ - ⌊start*sr⌋` frames, its initial frames are copied from the
source, and every frame at or beyond the source's last frame is 0 in every
channel. -/
theorem trim_zero_pads_spec (b : AudioBuffer) (s e : ℚ) (so eo : ℤ)
    (hso : so = ⌊s * (b.sampleRate : ℚ)⌋) (heo : eo = ⌊e * (b.sampleRate : ℚ)⌋)
    (hwf : b.WF) (hs0 : 0 ≤ s) (hse : s < e) (hfl : so < eo) :
    ∃ out, trimAudioBuffer b s e = .ok out ∧
      out.length = (eo - so).toNat ∧
      (∀ c k : ℕ, k < out.length → so.toNat + k < b.length →
        sampleAt out c k = sampleAt b c (so.toNat + k)) ∧
      (∀ c k : ℕ, b.length ≤ so.toNat + k → sampleAt out c k = 0) := by
  have h0 : 0 ≤ so := by
    rw [hso]
    exact Int.floor_nonneg.mpr (mul_nonneg hs0 (Nat.cast_nonneg _))
  obtain ⟨out, hout, hnc, hsr, hlen, hsam⟩ :=
    trim_ok_content b s e so eo hso heo hwf h0 hfl
  refine ⟨out, hout, hlen, fun c k hk hk2 => ?_, fun c k hk => ?_⟩
  · rw [hsam c k, if_pos ⟨by omega, hk2⟩]
  · rw [hsam c k, if_neg (by omega)]

/-- `copyToChannel` of a full-length channel is the identity. -/
theorem copyInto_eq_self (src : List ℚ) (n : ℕ) (h : src.length = n) :
    copyInto n src = src := by
  unfold copyInto
  subst h
  simp

/-- On a well-formed buffer `cloneAudioBuffer` reproduces the buffer. -/
theorem clone_eq_self (b : AudioBuffer) (hwf : b.WF) : cloneAudioBuffer b = b := by
  obtain ⟨h1, h2⟩ := hwf
  unfold cloneAudioBuffer
  cases b with
  | mk nc len sr data =>
    simp only at h1 h2 ⊢
    congr 1
    apply List.ext_getElem
    · simp [h1]
    · intro i hi1 hi2
      simp only [List.getElem_map, List.getElem_range]
      rw [getD_eq_getElem_of_lt _ _ _ (by simpa [h1] using hi2)]
      exact copyInto_eq_self _ _ (h2 _ (List.getElem_mem _))

/-- Samples of a buffer whose channels are all rewritten by the same
indexed in-place loop: the loop body applied to the old sample, for every
loop body that maps silence to silence. -/
theorem sampleAt_map_mapIdx (b : AudioBuffer) (g : ℕ → ℚ → ℚ)
    (hg : ∀ f, g f 0 = 0) (c f : ℕ) :
    sampleAt { b with data := b.data.map (fun ch => ch.mapIdx g) } c f =
      g f (sampleAt b c f) := by
  unfold sampleAt
  dsimp only
  by_cases hc : c < b.data.length
  · rw [getD_map_get _ _ _ hc, getD_eq_getElem_of_lt b.data _ _ hc]
    by_cases hf : f < (b.data[c]).length
    · rw [getD_eq_getElem_of_lt _ _ _ (by simpa using hf),
        getD_eq_getElem_of_lt _ _ _ hf]
      simp
    · rw [getD_eq_default_of_ge _ _ _ (by simpa using hf),
        getD_eq_default_of_ge _ _ _ hf, hg]
  · rw [getD_map_nil _ _ _ hc, getD_eq_default_of_ge _ _ _ hc]
    simp [hg]

/-- C4: `fadeIn(buffer, selStart, selEnd, duration)` with
`ss = ⌊selStart*sr⌋`, `es = min(ss + ⌊duration*sr⌋, ⌊selEnd*sr⌋)` and
`len = es - ss`: when `len ≤ 0` the result is an unmodified clone; when
`0 < len` every sample with index `j` in `[ss, es)` of every channel is
multiplied by `(j - ss)/len`, every other sample is unchanged, the sample
at `ss` becomes 0, and the sample at `es - 1` is scaled by `(len-1)/len`. -/
theorem fadeIn_spec (b : AudioBuffer) (selStart selEnd dur : ℚ) (ss es len : ℤ)
    (hss : ss = ⌊selStart * (b.sampleRate : ℚ)⌋)
    (hes : es = min (ss + ⌊dur * (b.sampleRate : ℚ)⌋) ⌊selEnd * (b.sampleRate : ℚ)⌋)
    (hlen : len = es - ss)
    (hwf : b.WF) (hsr : 0 < b.sampleRate) (h0 : 0 ≤ selStart)
    (hend : selEnd ≤ b.duration) :
    (len ≤ 0 → applyFadeIn b selStart selEnd dur = b) ∧
    (0 < len →
      (∀ c f : ℕ, ss ≤ (f : ℤ) → (f : ℤ) < es →
        sampleAt (applyFadeIn b selStart selEnd dur) c f =
          sampleAt b c f * ((((f : ℤ) - ss : ℤ) : ℚ) / ((len : ℤ) : ℚ))) ∧
      (∀ c f : ℕ, ¬(ss ≤ (f : ℤ) ∧ (f : ℤ) < es) →
        sampleAt (applyFadeIn b selStart selEnd dur) c f = sampleAt b c f) ∧
      (∀ c : ℕ, sampleAt (applyFadeIn b selStart selEnd dur) c ss.toNat = 0) ∧
      (∀ c : ℕ, sampleAt (applyFadeIn b selStart selEnd dur) c (es - 1).toNat =
        sampleAt b c (es - 1).toNat * (((len - 1 : ℤ) : ℚ) / ((len : ℤ) : ℚ)))) := by
  have hss0 : 0 ≤ ss := by
    rw [hss]
    exact Int.floor_nonneg.mpr (mul_nonneg h0 (Nat.cast_nonneg _))
  have key : applyFadeIn b selStart selEnd dur =
      if len ≤ 0 then b
      else { b with data := b.data.map (fun ch => ch.mapIdx (fun j x =>
        if ss ≤ (j : ℤ) ∧ (j : ℤ) < es then
          x * ((((j : ℤ) - ss : ℤ) : ℚ) / ((len : ℤ) : ℚ))
        else x)) } := by
    simp only [applyFadeIn, clone_eq_self b hwf]
    rw [← hss, ← hes, ← hlen]
  constructor
  · intro h
    rw [key, if_pos h]
  · intro h
    have hkey : applyFadeIn b selStart selEnd dur =
        { b with data := b.data.map (fun ch => ch.mapIdx (fun j x =>
          if ss ≤ (j : ℤ) ∧ (j : ℤ) < es then
            x * ((((j : ℤ) - ss : ℤ) : ℚ) / ((len : ℤ) : ℚ))
          else x)) } := by
      rw [key, if_neg (by omega)]
    have hsam : ∀ c f : ℕ, sampleAt (applyFadeIn b selStart selEnd dur) c f =
        if ss ≤ (f : ℤ) ∧ (f : ℤ) < es then
          sampleAt b c f * ((((f : ℤ) - ss : ℤ) : ℚ) / ((len : ℤ) : ℚ))
        else sampleAt b c f := by
      intro c f
      rw [hkey, sampleAt_map_mapIdx]
      intro f2
      by_cases hr : ss ≤ (f2 : ℤ) ∧ (f2 : ℤ) < es <;> simp [hr]
    refine ⟨fun c f h1 h2 => ?_, fun c f hr => ?_, fun c => ?_, fun c => ?_⟩
    · rw [hsam c f, if_pos ⟨h1, h2⟩]
    · rw [hsam c f, if_neg hr]
    · rw [hsam c ss.toNat, if_pos ⟨by omega, by omega⟩]
      rw [show ((ss.toNat : ℤ) - ss : ℤ) = 0 by omega]
      simp
    · rw [hsam c (es - 1).toNat, if_pos ⟨by omega, by omega⟩]
      rw [show (((es - 1).toNat : ℤ) - ss : ℤ) = len - 1 by omega]

/-- The `Math.max` fold only grows. -/
theorem foldl_max_abs_le (l : List ℤ) (F : ℤ → ℚ) :
    ∀ a : ℚ, a ≤ l.foldl (fun q j => max q |F j|) a := by
  induction l with
  | nil => intro a; exact le_refl a
  | cons j t ih => intro a; exact le_trans (le_max_left a |F j|) (ih _)

/-- `chanPeak` only grows from its accumulator. -/
theorem chanPeak_le (ss es : ℤ) (ch : List ℚ) : ∀ a : ℚ, a ≤ chanPeak ss es a ch :=
  foldl_max_abs_le (idxList ss es) _

/-- The peak scan starts at 0 and never decreases. -/
theorem regionPeak_nonneg (b : AudioBuffer) (ss es : ℤ) : 0 ≤ regionPeak b ss es := by
  unfold regionPeak
  have : ∀ (dat : List (List ℚ)) (a : ℚ), a ≤ dat.foldl (chanPeak ss es) a := by
    intro dat
    induction dat with
    | nil => intro a; exact le_refl a
    | cons ch t ih => intro a; exact le_trans (chanPeak_le ss es ch a) (ih _)
  exact this b.data 0

/-- A `max |·|` fold over pointwise `g`-scaled values is the scaled fold,
for a nonnegative scale. -/
theorem foldl_max_abs_mul (g : ℚ) (hg : 0 ≤ g) (F G : ℤ → ℚ) :
    ∀ l : List ℤ, (∀ j ∈ l, F j = G j * g) →
      ∀ a : ℚ, l.foldl (fun q j => max q |F j|) (a * g) =
        (l.foldl (fun q j => max q |G j|) a) * g := by
  intro l
  induction l with
  | nil => intro _ a; rfl
  | cons j t ih =>
    intro h a
    rw [List.foldl_cons, List.foldl_cons, h j (List.mem_cons_self j t), abs_mul,
      abs_of_nonneg hg, ← max_mul_of_nonneg _ _ hg]
    exact ih (fun x hx => h x (List.mem_cons_of_mem _ hx)) (max a |G j|)

/-- `chanPeak` of a channel whose region samples are scaled by `g ≥ 0`. -/
theorem chanPeak_mul (g : ℚ) (hg : 0 ≤ g) (ss es : ℤ) (ch ch2 : List ℚ)
    (h : ∀ j ∈ idxList ss es, getSample ch2 j = getSample ch j * g) (a : ℚ) :
    chanPeak ss es (a * g) ch2 = chanPeak ss es a ch * g :=
  foldl_max_abs_mul g hg _ _ (idxList ss es) h a

/-- The whole peak scan of a buffer whose region samples are scaled by
`g ≥ 0` is the scaled scan. -/
theorem regionPeak_fold_mul (g : ℚ) (hg : 0 ≤ g) (ss es : ℤ)
    (T : List ℚ → List ℚ) :
    ∀ dat : List (List ℚ),
      (∀ ch ∈ dat, ∀ j ∈ idxList ss es, getSample (T ch) j = getSample ch j * g) →
      ∀ a : ℚ, (dat.map T).foldl (chanPeak ss es) (a * g) =
        (dat.foldl (chanPeak ss es) a) * g := by
  intro dat
  induction dat with
  | nil => intro _ a; rfl
  | cons ch t ih =>
    intro h a
    rw [List.map_cons, List.foldl_cons, List.foldl_cons,
      chanPeak_mul g hg ss es ch (T ch) (h ch (List.mem_cons_self _ _)) a]
    exact ih (fun x hx => h x (List.mem_cons_of_mem _ hx)) (chanPeak ss es a ch)

/-- Membership in the loop range `[ss, es)`. -/
theorem mem_idxList {ss es j : ℤ} (hj : j ∈ idxList ss es) : ss ≤ j ∧ j < es := by
  unfold idxList at hj
  obtain ⟨k, hk, rfl⟩ := List.mem_map.mp hj
  rw [List.mem_range] at hk
  omega

/-- C3: `normalize(buffer, start, end)` with region `[⌊start*sr⌋, ⌊end*sr⌋)`
and `peak = max |sample|` over all channels of the region: when the peak is
0 the result is an unmodified clone; otherwise every in-region sample of
every channel is scaled by `1/peak`, every out-of-region sample is
unchanged, and the new in-region peak is exactly 1. -/
theorem normalize_spec (b : AudioBuffer) (s e : ℚ) (ss es : ℤ) (p : ℚ)
    (hss : ss = ⌊s * (b.sampleRate : ℚ)⌋) (hes : es = ⌊e * (b.sampleRate : ℚ)⌋)
    (hp : p = regionPeak b ss es)
    (hwf : b.WF) (hsr : 0 < b.sampleRate) (h0 : 0 ≤ s) (hend : e ≤ b.duration) :
    (p = 0 → applyNormalize b s e = b) ∧
    (p ≠ 0 →
      (∀ c f : ℕ, ss ≤ (f : ℤ) ∧ (f : ℤ) < es →
        sampleAt (applyNormalize b s e) c f = sampleAt b c f * (1 / p)) ∧
      (∀ c f : ℕ, ¬(ss ≤ (f : ℤ) ∧ (f : ℤ) < es) →
        sampleAt (applyNormalize b s e) c f = sampleAt b c f) ∧
      regionPeak (applyNormalize b s e) ss es = 1) := by
  have hss0 : 0 ≤ ss := by
    rw [hss]
    exact Int.floor_nonneg.mpr (mul_nonneg h0 (Nat.cast_nonneg _))
  have hsrQ : (0 : ℚ) < (b.sampleRate : ℚ) := by exact_mod_cast hsr
  have hesle : es ≤ (b.length : ℤ) := by
    rw [hes]
    have h1 : e * (b.sampleRate : ℚ) ≤ (b.length : ℚ) := by
      have h2 := mul_le_mul_of_nonneg_right hend (le_of_lt hsrQ)
      rwa [AudioBuffer.duration, div_mul_cancel₀ _ (ne_of_gt hsrQ)] at h2
    calc ⌊e * (b.sampleRate : ℚ)⌋ ≤ ⌊(b.length : ℚ)⌋ := Int.floor_le_floor h1
      _ = (b.length : ℤ) := Int.floor_natCast b.length
  have key : applyNormalize b s e =
      if p = 0 then b
      else { b with data := b.data.map (fun ch => ch.mapIdx (fun j x =>
        if ss ≤ (j : ℤ) ∧ (j : ℤ) < es then x * (1 / p) else x)) } := by
    simp only [applyNormalize, clone_eq_self b hwf]
    rw [← hss, ← hes, ← hp]
  constructor
  · intro h
    rw [key, if_pos h]
  · intro hne
    have hkey : applyNormalize b s e =
        { b with data := b.data.map (fun ch => ch.mapIdx (fun j x =>
          if ss ≤ (j : ℤ) ∧ (j : ℤ) < es then x * (1 / p) else x)) } := by
      rw [key, if_neg hne]
    have hppos : 0 < p :=
      lt_of_le_of_ne (hp ▸ regionPeak_nonneg b ss es) (Ne.symm hne)
    have hsam : ∀ c f : ℕ, sampleAt (applyNormalize b s e) c f =
        if ss ≤ (f : ℤ) ∧ (f : ℤ) < es then sampleAt b c f * (1 / p)
        else sampleAt b c f := by
      intro c f
      rw [hkey, sampleAt_map_mapIdx]
      intro f2
      by_cases hr : ss ≤ (f2 : ℤ) ∧ (f2 : ℤ) < es <;> simp [hr]
    refine ⟨fun c f hr => by rw [hsam c f, if_pos hr],
      fun c f hr => by rw [hsam c f, if_neg hr], ?_⟩
    have hscale : ∀ ch ∈ b.data, ∀ j ∈ idxList ss es,
        getSample (ch.mapIdx (fun j x =>
          if ss ≤ (j : ℤ) ∧ (j : ℤ) < es then x * (1 / p) else x)) j =
        getSample ch j * (1 / p) := by
      intro ch hch j hj
      obtain ⟨hj1, hj2⟩ := mem_idxList hj
      have hchlen : ch.length = b.length := hwf.2 ch hch
      have hjlen : j < (ch.length : ℤ) := by omega
      have hj0 : 0 ≤ j := by omega
      unfold getSample
      rw [if_pos ⟨hj0, by simpa using hjlen⟩, if_pos ⟨hj0, by omega⟩]
      have hjn : j.toNat < ch.length := by omega
      rw [getD_eq_getElem_of_lt _ _ _ (by simpa using hjn),
        getD_eq_getElem_of_lt _ _ _ hjn]
      simp only [List.getElem_mapIdx]
      rw [if_pos ⟨by omega, by omega⟩]
    rw [hkey]
    unfold regionPeak
    dsimp only
    have hzero : (0 : ℚ) = 0 * (1 / p) := by ring
    rw [hzero, regionPeak_fold_mul (1 / p) (by positivity) ss es _ b.data hscale 0]
    rw [← regionPeak]
    rw [← hp]
    field_simp

/-- Closed instance of `normalize_spec`: normalizing the whole 2-frame
buffer of peak 1/2 produces a region of peak exactly 1. -/
theorem normalize_spec_witness :
    regionPeak (applyNormalize normScenarioBuffer 0 2) 0 2 = 1 :=
  ((normalize_spec normScenarioBuffer 0 2 0 2 (1/2)
    (by with_unfolding_all decide) (by with_unfolding_all decide)
    (by with_unfolding_all decide) (by decide) (by decide) (by norm_num)
    (by with_unfolding_all decide)).2 (by norm_num)).2.2

/-- The indexed block sum of the downsampling loop equals the sum over the
contiguous slice, whenever the block stays inside the data. -/
theorem downsample_slice_sum (raw : List ℚ) :
    ∀ m s : ℕ, s + m ≤ raw.length →
      ((List.range m).map (fun j => |raw.getD (s + j) 0|)).sum =
      (((raw.drop s).take m).map (fun x => |x|)).sum := by
  intro m
  induction m with
  | zero => intro s _; simp
  | succ m ih =>
    intro s h
    have hs : s < raw.length := by omega
    rw [List.range_succ_eq_map, List.map_cons, List.sum_cons, List.map_map]
    rw [List.drop_eq_getElem_cons hs, List.take_succ_cons, List.map_cons,
      List.sum_cons]
    have hcomp : ((fun j : ℕ => |raw.getD (s + j) 0|) ∘ Nat.succ) =
        (fun j : ℕ => |raw.getD (s + 1 + j) 0|) := by
      funext j
      simp only [Function.comp_apply]
      rw [show s + (j + 1) = s + 1 + j by omega]
    rw [hcomp, ih (s + 1) (by omega)]
    congr 1
    rw [show s + 0 = s by omega, getD_eq_getElem_of_lt _ _ _ hs]

/-- C9: `downsamplePeaks(buffer, bucketCount)` returns exactly `bucketCount`
values; with `blockSize = ⌊frameCount / bucketCount⌋`, value `i` is the mean
of `|sample|` over the contiguous channel-0 block starting at
`i * blockSize`. -/
theorem downsamplePeaks_spec (b : AudioBuffer) (n : ℕ) (hwf : b.WF)
    (hch : 0 < b.numberOfChannels) (hn : 1 ≤ n) :
    (downsamplePeaks b n).length = n ∧
    ∀ i : ℕ, i < n →
      (downsamplePeaks b n).getD i 0 =
        ((((b.data.getD 0 []).drop (b.length / n * i)).take (b.length / n)).map
          (fun x => |x|)).sum / ((b.length / n : ℕ) : ℚ) := by
  have hdlen : b.data.length = b.numberOfChannels := hwf.1
  have h0 : 0 < b.data.length := by omega
  have hlen : (b.data.getD 0 []).length = b.length := by
    rw [getD_eq_getElem_of_lt _ _ _ h0]
    exact hwf.2 _ (List.getElem_mem h0)
  constructor
  · simp [downsamplePeaks]
  · intro i hi
    simp only [downsamplePeaks]
    rw [getD_eq_getElem_of_lt _ _ _ (by simpa using hi)]
    simp only [List.getElem_map, List.getElem_range]
    rw [hlen]
    rw [downsample_slice_sum (b.data.getD 0 []) (b.length / n) (b.length / n * i) ?hb]
    case hb =>
      have h1 : b.length / n * (i + 1) ≤ b.length / n * n :=
        Nat.mul_le_mul_left _ (by omega)
      have h2 : b.length / n * n ≤ b.length := Nat.div_mul_le_self _ _
      have h3 : b.length / n * (i + 1) = b.length / n * i + b.length / n :=
        Nat.mul_succ _ _
      rw [hlen]
      omega

/-- Closed instance of `downsamplePeaks_spec`: the first of two buckets of
the 4-frame scenario buffer is the mean of its first two absolute samples. -/
theorem downsamplePeaks_spec_witness :
    (downsamplePeaks peaksScenarioBuffer 2).getD 0 0 =
      ((((peaksScenarioBuffer.data.getD 0 []).drop
        (peaksScenarioBuffer.length / 2 * 0)).take (peaksScenarioBuffer.length / 2)).map
        (fun x => |x|)).sum / ((peaksScenarioBuffer.length / 2 : ℕ) : ℚ) :=
  (downsamplePeaks_spec peaksScenarioBuffer 2 (by decide) (by decide)
    (by decide)).2 0 (by decide)

/-- Allocate-then-fill never touches an existing heap slot. -/
theorem heap_set_fresh_get (heap : List AudioBuffer) (x y : AudioBuffer) (k : ℕ)
    (hk : k < heap.length) :
    ((heap ++ [x]).set heap.length y)[k]? = heap[k]? := by
  rw [List.getElem?_set_ne (by omega), List.getElem?_append_left hk]

/-- C8: every effect operation — trim, fadeIn, fadeOut, normalize, noise
gate, studio effect — leaves every pre-existing buffer of the heap
byte-identical (in particular its source buffer) whether it succeeds or
fails, and returns the index of a freshly allocated buffer that shares no
storage with any input. -/
theorem effects_fresh_allocation_spec :
    (∀ (heap : List AudioBuffer) (i : ℕ) (s e : ℚ) (res : List AudioBuffer × ℕ),
      trimH heap i s e = .ok res →
      res.2 = heap.length ∧ ∀ k : ℕ, k < heap.length → res.1[k]? = heap[k]?) ∧
    (∀ (heap : List AudioBuffer) (i : ℕ) (s e d : ℚ),
      (fadeInH heap i s e d).2 = heap.length ∧
      ∀ k : ℕ, k < heap.length → (fadeInH heap i s e d).1[k]? = heap[k]?) ∧
    (∀ (heap : List AudioBuffer) (i : ℕ) (s e d : ℚ),
      (fadeOutH heap i s e d).2 = heap.length ∧
      ∀ k : ℕ, k < heap.length → (fadeOutH heap i s e d).1[k]? = heap[k]?) ∧
    (∀ (heap : List AudioBuffer) (i : ℕ) (s e : ℚ),
      (normalizeH heap i s e).2 = heap.length ∧
      ∀ k : ℕ, k < heap.length → (normalizeH heap i s e).1[k]? = heap[k]?) ∧
    (∀ (heap : List AudioBuffer) (i : ℕ) (s e : ℚ),
      (noiseGateH heap i s e).2 = heap.length ∧
      ∀ k : ℕ, k < heap.length → (noiseGateH heap i s e).1[k]? = heap[k]?) ∧
    (∀ (render : AudioBuffer → AudioBuffer) (heap : List AudioBuffer) (i : ℕ)
      (s e : ℚ) (res : List AudioBuffer × ℕ),
      studioEffectH render heap i s e = .ok res →
      res.2 = heap.length + 2 ∧
      ∀ k : ℕ, k < heap.length → res.1[k]? = heap[k]?) := by
  refine ⟨?_, ?_, ?_, ?_, ?_, ?_⟩
  · intro heap i s e res h
    simp only [trimH] at h
    cases htr : trimAudioBuffer (heap.getD i default) s e with
    | error m => rw [htr] at h; simp at h
    | ok out =>
      rw [htr] at h
      simp only [heapAlloc, Except.ok.injEq] at h
      subst h
      exact ⟨rfl, fun k hk => heap_set_fresh_get heap _ _ k hk⟩
  · intro heap i s e d
    unfold fadeInH heapAlloc
    exact ⟨rfl, fun k hk => heap_set_fresh_get heap _ _ k hk⟩
  · intro heap i s e d
    unfold fadeOutH heapAlloc
    exact ⟨rfl, fun k hk => heap_set_fresh_get heap _ _ k hk⟩
  · intro heap i s e
    unfold normalizeH heapAlloc
    exact ⟨rfl, fun k hk => heap_set_fresh_get heap _ _ k hk⟩
  · intro heap i s e
    unfold noiseGateH heapAlloc
    exact ⟨rfl, fun k hk => heap_set_fresh_get heap _ _ k hk⟩
  · intro render heap i s e res h
    simp only [studioEffectH] at h
    cases htr : trimAudioBuffer (heap.getD i default) s e with
    | error m => rw [htr] at h; simp at h
    | ok out =>
      rw [htr] at h
      simp only [heapAlloc, Except.ok.injEq] at h
      subst h
      have hlen1 : ((heap ++ [createBuffer out.numberOfChannels out.length
          out.sampleRate]).set heap.length out).length = heap.length + 1 := by
        simp
      constructor
      · simp [hlen1]
      · intro k hk
        rw [List.getElem?_set_ne (by simp [hlen1]; omega),
          List.getElem?_append_left (by simp [hlen1]; omega),
          List.getElem?_append_left (by simp [hlen1]; omega),
          List.getElem?_set_ne (by omega), List.getElem?_append_left hk]

/-- Closed instance of `effects_fresh_allocation_spec`: the heap-level fade
on a one-buffer heap allocates slot 1 and leaves slot 0 untouched. -/
theorem effects_fresh_allocation_spec_witness :
    (fadeInH [bufA] 0 0 1 1).2 = 1 ∧
    (fadeInH [bufA] 0 0 1 1).1[0]? = [bufA][0]? :=
  ⟨(effects_fresh_allocation_spec.2.1 [bufA] 0 0 1 1).1,
    (effects_fresh_allocation_spec.2.1 [bufA] 0 0 1 1).2 0 (by decide)⟩

/-- Closed instance of `fadeIn_spec`: on the all-ones 4-frame buffer a 2 s
fade starting at 0 zeroes the first sample. -/
theorem fadeIn_spec_witness :
    sampleAt (applyFadeIn fadeScenarioBuffer 0 4 2) 0 (0 : ℤ).toNat = 0 :=
  ((fadeIn_spec fadeScenarioBuffer 0 4 2 0 2 2 (by with_unfolding_all decide)
    (by with_unfolding_all decide) (by decide) (by decide) (by decide)
    (by norm_num) (by with_unfolding_all decide)).2 (by decide)).2.2.1 0

/-- Taking a leading chunk of its own length. -/
theorem take_chunk {α : Type} (a rest : List α) (n : ℕ) (h : a.length = n) :
    (a ++ rest).take n = a := by
  subst h
  exact List.take_left a rest

/-- Dropping a leading chunk of its own length. -/
theorem drop_chunk {α : Type} (a rest : List α) (n : ℕ) (h : a.length = n) :
    (a ++ rest).drop n = rest := by
  subst h
  exact List.drop_left a rest

/-- Dropping past a leading chunk. -/
theorem drop_chunk_add {α : Type} (a rest : List α) (n m : ℕ) (h : a.length = n) :
    (a ++ rest).drop (n + m) = rest.drop m := by
  subst h
  exact List.drop_append m

/-- Length of the flattening of uniformly sized blocks. -/
theorem flatten_uniform_length {α β : Type} (m : ℕ) (f : β → List α) :
    ∀ l : List β, (∀ x ∈ l, (f x).length = m) →
      ((l.map f).flatten).length = l.length * m := by
  intro l
  induction l with
  | nil => intro _; simp
  | cons x t ih =>
    intro h
    simp only [List.map_cons, List.flatten_cons, List.length_append,
      List.length_cons]
    rw [h x (List.mem_cons_self x t),
      ih (fun y hy => h y (List.mem_cons_of_mem _ hy))]
    ring

/-- Byte length of the PCM16 data section: two bytes per sample. -/
theorem floatTo16BitPCM_length (l : List ℚ) :
    (floatTo16BitPCM l).length = 2 * l.length := by
  unfold floatTo16BitPCM
  rw [flatten_uniform_length 2 (fun s => int16Bytes (pcm16 s)) l (fun x _ => rfl)]
  exact Nat.mul_comm l.length 2

/-- The interleaving loop emits `frameCount * channelCount` samples. -/
theorem interleave_length (b : AudioBuffer) :
    (interleave b).length = b.length * b.numberOfChannels := by
  unfold interleave
  rw [flatten_uniform_length b.numberOfChannels _ _ (fun x _ => by simp)]
  simp

/-- Block `k` of the flattening of uniformly sized blocks. -/
theorem flatten_uniform {α β : Type} (m : ℕ) (f : β → List α) :
    ∀ l : List β, (∀ x ∈ l, (f x).length = m) →
      ∀ k : ℕ, ∀ hk : k < l.length,
        (((l.map f).flatten).drop (m * k)).take m = f l[k] := by
  intro l
  induction l with
  | nil => intro _ k hk; simp at hk
  | cons x t ih =>
    intro h k hk
    cases k with
    | zero =>
      simp only [List.map_cons, List.flatten_cons, Nat.mul_zero, List.drop_zero,
        List.getElem_cons_zero]
      exact take_chunk _ _ m (h x (List.mem_cons_self x t))
    | succ k =>
      simp only [List.map_cons, List.flatten_cons, List.getElem_cons_succ]
      rw [show m * (k + 1) = (f x).length + m * k by
        rw [h x (List.mem_cons_self x t)]; ring]
      rw [drop_chunk_add _ _ _ _ rfl]
      exact ih (fun y hy => h y (List.mem_cons_of_mem _ hy)) k (by simpa using hk)

/-- The interleaved sample at flat position `i * channelCount + j` is the
channel-`j` sample of frame `i`. -/
theorem interleave_getElem (b : AudioBuffer) (i j : ℕ) (hi : i < b.length)
    (hj : j < b.numberOfChannels) :
    (interleave b)[i * b.numberOfChannels + j]? = some (sampleAt b j i) := by
  have hblk := flatten_uniform b.numberOfChannels
    (fun i => (List.range b.numberOfChannels).map (fun j => sampleAt b j i))
    (List.range b.length) (fun x _ => by simp) i (by simpa using hi)
  rw [List.getElem_range] at hblk
  have h1 : ((((List.range b.length).map (fun i =>
      (List.range b.numberOfChannels).map (fun j => sampleAt b j i))).flatten.drop
        (b.numberOfChannels * i)).take b.numberOfChannels)[j]? =
      ((List.range b.numberOfChannels).map (fun j => sampleAt b j i))[j]? := by
    rw [hblk]
  have h2 : ((List.range b.numberOfChannels).map (fun j => sampleAt b j i))[j]? =
      some (sampleAt b j i) := by
    rw [List.getElem?_eq_getElem (by simpa using hj)]
    simp
  rw [List.getElem?_take_of_lt hj, List.getElem?_drop, h2] at h1
  unfold interleave
  rw [show i * b.numberOfChannels + j = b.numberOfChannels * i + j by ring]
  exact h1

set_option maxHeartbeats 2000000 in
/-- C1: `audioBufferToWavBlob` emits exactly
`44 + frameCount * channelCount * 2` bytes laid out per the RIFF/WAVE PCM16
table: the RIFF/WAVE/fmt/data magics at 0/8/12/36, `totalLength - 8` at 4,
the fmt-chunk size 16 at 16, PCM format 1 at 20, the channel count at 22,
the sample rate at 24, the byte rate at 28, the block align at 32, 16 bits
per sample at 34, the PCM byte count at 40, and from 44 the channel-major
interleaved samples, each clamped to `[-1,1]`, scaled by 32768 (negative)
or 32767 (non-negative), truncated toward zero, two bytes little-endian. -/
theorem wav_encode_layout (b : AudioBuffer) :
    (audioBufferToWavBlob b).length = 44 + b.length * b.numberOfChannels * 2 ∧
    (audioBufferToWavBlob b).take 4 = [82, 73, 70, 70] ∧
    ((audioBufferToWavBlob b).drop 4).take 4 =
      le32 ((audioBufferToWavBlob b).length - 8) ∧
    ((audioBufferToWavBlob b).drop 8).take 4 = [87, 65, 86, 69] ∧
    ((audioBufferToWavBlob b).drop 12).take 4 = [102, 109, 116, 32] ∧
    ((audioBufferToWavBlob b).drop 16).take 4 = le32 16 ∧
    ((audioBufferToWavBlob b).drop 20).take 2 = le16 1 ∧
    ((audioBufferToWavBlob b).drop 22).take 2 = le16 b.numberOfChannels ∧
    ((audioBufferToWavBlob b).drop 24).take 4 = le32 b.sampleRate ∧
    ((audioBufferToWavBlob b).drop 28).take 4 =
      le32 (b.sampleRate * 2 * b.numberOfChannels) ∧
    ((audioBufferToWavBlob b).drop 32).take 2 = le16 (b.numberOfChannels * 2) ∧
    ((audioBufferToWavBlob b).drop 34).take 2 = le16 16 ∧
    ((audioBufferToWavBlob b).drop 36).take 4 = [100, 97, 116, 97] ∧
    ((audioBufferToWavBlob b).drop 40).take 4 =
      le32 (b.length * b.numberOfChannels * 2) ∧
    (∀ i j : ℕ, i < b.length → j < b.numberOfChannels →
      ((audioBufferToWavBlob b).drop
        (44 + 2 * (i * b.numberOfChannels + j))).take 2 =
      int16Bytes (pcm16 (sampleAt b j i))) := by
  have hwav : audioBufferToWavBlob b =
      [82, 73, 70, 70] ++ (le32 (b.length * b.numberOfChannels * 2 + 44 - 8) ++
      ([87, 65, 86, 69] ++ ([102, 109, 116, 32] ++ (le32 16 ++ (le16 1 ++
      (le16 b.numberOfChannels ++ (le32 b.sampleRate ++
      (le32 (b.sampleRate * 2 * b.numberOfChannels) ++
      (le16 (b.numberOfChannels * 2) ++ (le16 16 ++ ([100, 97, 116, 97] ++
      (le32 (b.length * b.numberOfChannels * 2 + 44 - 44) ++
      floatTo16BitPCM (interleave b))))))))))))) := by
    simp only [audioBufferToWavBlob, List.append_assoc]
  have d4 : (audioBufferToWavBlob b).drop 4 =
      le32 (b.length * b.numberOfChannels * 2 + 44 - 8) ++
      ([87, 65, 86, 69] ++ ([102, 109, 116, 32] ++ (le32 16 ++ (le16 1 ++
      (le16 b.numberOfChannels ++ (le32 b.sampleRate ++
      (le32 (b.sampleRate * 2 * b.numberOfChannels) ++
      (le16 (b.numberOfChannels * 2) ++ (le16 16 ++ ([100, 97, 116, 97] ++
      (le32 (b.length * b.numberOfChannels * 2 + 44 - 44) ++
      floatTo16BitPCM (interleave b)))))))))))) := by
    rw [hwav]; exact drop_chunk _ _ 4 (by rfl)
  have d8 : (audioBufferToWavBlob b).drop 8 =
      [87, 65, 86, 69] ++ ([102, 109, 116, 32] ++ (le32 16 ++ (le16 1 ++
      (le16 b.numberOfChannels ++ (le32 b.sampleRate ++
      (le32 (b.sampleRate * 2 * b.numberOfChannels) ++
      (le16 (b.numberOfChannels * 2) ++ (le16 16 ++ ([100, 97, 116, 97] ++
      (le32 (b.length * b.numberOfChannels * 2 + 44 - 44) ++
      floatTo16BitPCM (interleave b))))))))))) := by
    rw [show (8 : ℕ) = 4 + 4 by rfl, ← List.drop_drop, d4]
    exact drop_chunk _ _ 4 (by rfl)
  have d12 : (audioBufferToWavBlob b).drop 12 =
      [102, 109, 116, 32] ++ (le32 16 ++ (le16 1 ++
      (le16 b.numberOfChannels ++ (le32 b.sampleRate ++
      (le32 (b.sampleRate * 2 * b.numberOfChannels) ++
      (le16 (b.numberOfChannels * 2) ++ (le16 16 ++ ([100, 97, 116, 97] ++
      (le32 (b.length * b.numberOfChannels * 2 + 44 - 44) ++
      floatTo16BitPCM (interleave b)))))))))) := by
    rw [show (12 : ℕ) = 8 + 4 by rfl, ← List.drop_drop, d8]
    exact drop_chunk _ _ 4 (by rfl)
  have d16 : (audioBufferToWavBlob b).drop 16 =
      le32 16 ++ (le16 1 ++ (le16 b.numberOfChannels ++ (le32 b.sampleRate ++
      (le32 (b.sampleRate * 2 * b.numberOfChannels) ++
      (le16 (b.numberOfChannels * 2) ++ (le16 16 ++ ([100, 97, 116, 97] ++
      (le32 (b.length * b.numberOfChannels * 2 + 44 - 44) ++
      floatTo16BitPCM (interleave b))))))))) := by
    rw [show (16 : ℕ) = 12 + 4 by rfl, ← List.drop_drop, d12]
    exact drop_chunk _ _ 4 (by rfl)
  have d20 : (audioBufferToWavBlob b).drop 20 =
      le16 1 ++ (le16 b.numberOfChannels ++ (le32 b.sampleRate ++
      (le32 (b.sampleRate * 2 * b.numberOfChannels) ++
      (le16 (b.numberOfChannels * 2) ++ (le16 16 ++ ([100, 97, 116, 97] ++
      (le32 (b.length * b.numberOfChannels * 2 + 44 - 44) ++
      floatTo16BitPCM (interleave b)))))))) := by
    rw [show (20 : ℕ) = 16 + 4 by rfl, ← List.drop_drop, d16]
    exact drop_chunk _ _ 4 (by rfl)
  have d22 : (audioBufferToWavBlob b).drop 22 =
      le16 b.numberOfChannels ++ (le32 b.sampleRate ++
      (le32 (b.sampleRate * 2 * b.numberOfChannels) ++
      (le16 (b.numberOfChannels * 2) ++ (le16 16 ++ ([100, 97, 116, 97] ++
      (le32 (b.length * b.numberOfChannels * 2 + 44 - 44) ++
      floatTo16BitPCM (interleave b))))))) := by
    rw [show (22 : ℕ) = 20 + 2 by rfl, ← List.drop_drop, d20]
    exact drop_chunk _ _ 2 (by rfl)
  have d24 : (audioBufferToWavBlob b).drop 24 =
      le32 b.sampleRate ++ (le32 (b.sampleRate * 2 * b.numberOfChannels) ++
      (le16 (b.numberOfChannels * 2) ++ (le16 16 ++ ([100, 97, 116, 97] ++
      (le32 (b.length * b.numberOfChannels * 2 + 44 - 44) ++
      floatTo16BitPCM (interleave b)))))) := by
    rw [show (24 : ℕ) = 22 + 2 by rfl, ← List.drop_drop, d22]
    exact drop_chunk _ _ 2 (by rfl)
  have d28 : (audioBufferToWavBlob b).drop 28 =
      le32 (b.sampleRate * 2 * b.numberOfChannels) ++
      (le16 (b.numberOfChannels * 2) ++ (le16 16 ++ ([100, 97, 116, 97] ++
      (le32 (b.length * b.numberOfChannels * 2 + 44 - 44) ++
      floatTo16BitPCM (interleave b))))) := by
    rw [show (28 : ℕ) = 24 + 4 by rfl, ← List.drop_drop, d24]
    exact drop_chunk _ _ 4 (by rfl)
  have d32 : (audioBufferToWavBlob b).drop 32 =
      le16 (b.numberOfChannels * 2) ++ (le16 16 ++ ([100, 97, 116, 97] ++
      (le32 (b.length * b.numberOfChannels * 2 + 44 - 44) ++
      floatTo16BitPCM (interleave b)))) := by
    rw [show (32 : ℕ) = 28 + 4 by rfl, ← List.drop_drop, d28]
    exact drop_chunk _ _ 4 (by rfl)
  have d34 : (audioBufferToWavBlob b).drop 34 =
      le16 16 ++ ([100, 97, 116, 97] ++
      (le32 (b.length * b.numberOfChannels * 2 + 44 - 44) ++
      floatTo16BitPCM (interleave b))) := by
    rw [show (34 : ℕ) = 32 + 2 by rfl, ← List.drop_drop, d32]
    exact drop_chunk _ _ 2 (by rfl)
  have d36 : (audioBufferToWavBlob b).drop 36 =
      [100, 97, 116, 97] ++
      (le32 (b.length * b.numberOfChannels * 2 + 44 - 44) ++
      floatTo16BitPCM (interleave b)) := by
    rw [show (36 : ℕ) = 34 + 2 by rfl, ← List.drop_drop, d34]
    exact drop_chunk _ _ 2 (by rfl)
  have d40 : (audioBufferToWavBlob b).drop 40 =
      le32 (b.length * b.numberOfChannels * 2 + 44 - 44) ++
      floatTo16BitPCM (interleave b) := by
    rw [show (40 : ℕ) = 36 + 4 by rfl, ← List.drop_drop, d36]
    exact drop_chunk _ _ 4 (by rfl)
  have d44 : (audioBufferToWavBlob b).drop 44 = floatTo16BitPCM (interleave b) := by
    rw [show (44 : ℕ) = 40 + 4 by rfl, ← List.drop_drop, d40]
    exact drop_chunk _ _ 4 (by rfl)
  have hlen : (audioBufferToWavBlob b).length =
      44 + b.length * b.numberOfChannels * 2 := by
    rw [hwav]
    simp only [List.length_append, le32, le16, List.length_cons, List.length_nil,
      floatTo16BitPCM_length, interleave_length]
    ring
  refine ⟨hlen, by rw [hwav]; exact take_chunk _ _ 4 (by rfl), ?_,
    by rw [d8]; exact take_chunk _ _ 4 (by rfl),
    by rw [d12]; exact take_chunk _ _ 4 (by rfl),
    by rw [d16]; exact take_chunk _ _ 4 (by rfl),
    by rw [d20]; exact take_chunk _ _ 2 (by rfl),
    by rw [d22]; exact take_chunk _ _ 2 (by rfl),
    by rw [d24]; exact take_chunk _ _ 4 (by rfl),
    by rw [d28]; exact take_chunk _ _ 4 (by rfl),
    by rw [d32]; exact take_chunk _ _ 2 (by rfl),
    by rw [d34]; exact take_chunk _ _ 2 (by rfl),
    by rw [d36]; exact take_chunk _ _ 4 (by rfl), ?_, ?_⟩
  · rw [d4, take_chunk _ _ 4 (by rfl), hlen]
    congr 1
    omega
  · rw [d40, take_chunk _ _ 4 (by rfl)]
    congr 1
  · intro i j hi hj
    have hk : i * b.numberOfChannels + j < (interleave b).length := by
      rw [interleave_length]
      have h1 : i * b.numberOfChannels + j < (i + 1) * b.numberOfChannels := by
        rw [Nat.succ_mul]
        omega
      have h2 : (i + 1) * b.numberOfChannels ≤ b.length * b.numberOfChannels :=
        Nat.mul_le_mul_right _ (by omega)
      omega
    rw [show 44 + 2 * (i * b.numberOfChannels + j) =
      44 + 2 * (i * b.numberOfChannels + j) by rfl, ← List.drop_drop, d44]
    have hbytes := flatten_uniform 2 (fun s => int16Bytes (pcm16 s))
      (interleave b) (fun x _ => rfl) (i * b.numberOfChannels + j) hk
    rw [show (interleave b)[i * b.numberOfChannels + j] = sampleAt b j i from by
      have hsome := interleave_getElem b i j hi hj
      rw [List.getElem?_eq_getElem hk] at hsome
      exact Option.some.inj hsome] at hbytes
    exact hbytes

/-- Closed instance of `wav_encode_layout` at the mono 44100 Hz 2-frame
scenario buffer: 48 bytes total, channel-count field 1 at offset 22, data
byte length 4 at offset 40, and the second sample's two data bytes. -/
theorem wav_encode_layout_witness :
    (audioBufferToWavBlob wavScenarioBuffer).length = 44 + 2 * 1 * 2 ∧
    ((audioBufferToWavBlob wavScenarioBuffer).drop 22).take 2 = le16 1 ∧
    ((audioBufferToWavBlob wavScenarioBuffer).drop 40).take 4 = le32 4 ∧
    ((audioBufferToWavBlob wavScenarioBuffer).drop (44 + 2 * (1 * 1 + 0))).take 2 =
      int16Bytes (pcm16 (sampleAt wavScenarioBuffer 0 1)) :=
  ⟨(wav_encode_layout wavScenarioBuffer).1,
    (wav_encode_layout wavScenarioBuffer).2.2.2.2.2.2.2.1,
    (wav_encode_layout wavScenarioBuffer).2.2.2.2.2.2.2.2.2.2.2.2.2.1,
    (wav_encode_layout wavScenarioBuffer).2.2.2.2.2.2.2.2.2.2.2.2.2.2 1 0
      (by decide) (by decide)⟩

/-- Closed instance of `trim_zero_pads_spec`: trimming `[0, 2]` out of the
1-second unit buffer succeeds, keeps the one existing frame and pads the
second with silence. -/
theorem trim_zero_pads_spec_witness :
    ∃ out, trimAudioBuffer unitBuffer 0 2 = .ok out ∧
      out.length = ((2 : ℤ) - 0).toNat ∧
      (∀ c k : ℕ, k < out.length → (0 : ℤ).toNat + k < unitBuffer.length →
        sampleAt out c k = sampleAt unitBuffer c ((0 : ℤ).toNat + k)) ∧
      (∀ c k : ℕ, unitBuffer.length ≤ (0 : ℤ).toNat + k → sampleAt out c k = 0) :=
  trim_zero_pads_spec unitBuffer 0 2 0 2 (by with_unfolding_all decide)
    (by with_unfolding_all decide) (by decide) (by norm_num) (by norm_num)
    (by decide)

/-- The duration-scan step is a `max`. -/
theorem maxEndStep_eq (td : ℚ) (t : Track) :
    maxEndStep td t = max td (t.startTime + t.buffer.duration) := by
  unfold maxEndStep
  by_cases h : t.startTime + t.buffer.duration > td
  · rw [if_pos h, max_eq_right h.le]
  · rw [if_neg h, max_eq_left (not_lt.mp h)]

/-- Pushing a `max` into the seed of a `max`-foldr. -/
theorem foldr_max_insert (l : List ℚ) :
    ∀ a x : ℚ, l.foldr max (max a x) = max x (l.foldr max a) := by
  induction l with
  | nil => intro a x; exact max_comm a x
  | cons y t ih =>
    intro a x
    simp only [List.foldr_cons]
    rw [ih a x, max_left_comm]

/-- The duration scan of `renderMix` computes the `max` of the track end
times (seeded with its initial 0). -/
theorem foldl_maxEnd_eq (tracks : List Track) : ∀ a : ℚ,
    tracks.foldl maxEndStep a =
      (tracks.map (fun t => t.startTime + t.buffer.duration)).foldr max a := by
  induction tracks with
  | nil => intro a; rfl
  | cons t ts ih =>
    intro a
    simp only [List.foldl_cons, List.map_cons, List.foldr_cons]
    rw [maxEndStep_eq, ih (max a (t.startTime + t.buffer.duration))]
    exact foldr_max_insert _ _ _

/-- Every element is bounded by the `max`-foldr. -/
theorem le_foldr_max (l : List ℚ) : ∀ x ∈ l, ∀ a : ℚ, x ≤ l.foldr max a := by
  induction l with
  | nil => intro x hx; simp at hx
  | cons y t ih =>
    intro x hx a
    rcases List.mem_cons.mp hx with rfl | hx2
    · exact le_max_left _ _
    · exact le_trans (ih x hx2 a) (le_max_right _ _)

/-- On a nonempty list of nonnegative values the `max`-foldr seeded with 0
is attained by an element. -/
theorem foldr_max_attained :
    ∀ l : List ℚ, (∀ x ∈ l, 0 ≤ x) → l ≠ [] → ∃ x ∈ l, l.foldr max 0 = x := by
  intro l
  induction l with
  | nil => intro _ hne; exact absurd rfl hne
  | cons y t ih =>
    intro h0 _
    by_cases ht : t = []
    · subst ht
      refine ⟨y, List.mem_cons_self _ _, ?_⟩
      simp only [List.foldr_cons, List.foldr_nil]
      exact max_eq_left (h0 y (List.mem_cons_self _ _))
    · obtain ⟨x, hx, hfx⟩ := ih (fun z hz => h0 z (List.mem_cons_of_mem _ hz)) ht
      simp only [List.foldr_cons]
      rcases le_total (t.foldr max 0) y with hle | hle
      · exact ⟨y, List.mem_cons_self _ _, max_eq_left hle⟩
      · exact ⟨x, List.mem_cons_of_mem _ hx, by rw [max_eq_right hle, hfx]⟩

/-- One mixing step preserves the whole output geometry. -/
theorem mixStep_fields (sr : ℕ) (out : AudioBuffer) (t : Track) :
    (mixStep sr out t).numberOfChannels = out.numberOfChannels ∧
    (mixStep sr out t).sampleRate = out.sampleRate ∧
    (mixStep sr out t).length = out.length ∧
    (mixStep sr out t).data.length = out.data.length ∧
    ∀ c : ℕ, ((mixStep sr out t).data.getD c []).length =
      (out.data.getD c []).length := by
  unfold mixStep mixTrack
  by_cases h : t.isMuted
  · simp [h]
  · rw [if_neg h]
    refine ⟨rfl, rfl, rfl, by simp, fun c => ?_⟩
    dsimp only
    by_cases hc : c < out.data.length
    · have l1 : (out.data.mapIdx (fun c ch => ch.mapIdx (fun f v =>
          v + t.volume * trackSampleAt t sr c f))).getD c [] =
          (out.data[c]).mapIdx (fun f v =>
            v + t.volume * trackSampleAt t sr c f) := by
        rw [List.getD_eq_getElem?_getD, List.getElem?_mapIdx,
          List.getElem?_eq_getElem hc]
        rfl
      rw [l1, getD_eq_getElem_of_lt _ _ _ hc]
      simp
    · rw [getD_eq_default_of_ge _ _ _ (by simpa using hc),
        getD_eq_default_of_ge _ _ _ hc]

/-- The mixing fold preserves the output geometry. -/
theorem mix_fold_shape (sr : ℕ) :
    ∀ (tracks : List Track) (out : AudioBuffer),
      (tracks.foldl (mixStep sr) out).numberOfChannels = out.numberOfChannels ∧
      (tracks.foldl (mixStep sr) out).sampleRate = out.sampleRate ∧
      (tracks.foldl (mixStep sr) out).length = out.length := by
  intro tracks
  induction tracks with
  | nil => exact fun out => ⟨rfl, rfl, rfl⟩
  | cons t ts ih =>
    intro out
    rw [List.foldl_cons]
    obtain ⟨f1, f2, f3, _, _⟩ := mixStep_fields sr out t
    obtain ⟨g1, g2, g3⟩ := ih (mixStep sr out t)
    exact ⟨g1.trans f1, g2.trans f2, g3.trans f3⟩

/-- Rendering one track adds its gain-scaled contribution to every output
sample in range. -/
theorem mixTrack_sampleAt (out : AudioBuffer) (t : Track) (sr : ℕ) (c f : ℕ)
    (hc : c < out.data.length) (hf : f < (out.data.getD c []).length) :
    sampleAt (mixTrack out t sr) c f =
      sampleAt out c f + t.volume * trackSampleAt t sr c f := by
  unfold mixTrack sampleAt
  dsimp only
  have hch : out.data.getD c [] = out.data[c] := getD_eq_getElem_of_lt _ _ _ hc
  have h1 : (out.data.mapIdx (fun c ch => ch.mapIdx (fun f v =>
      v + t.volume * trackSampleAt t sr c f))).getD c [] =
      (out.data[c]).mapIdx (fun f v => v + t.volume * trackSampleAt t sr c f) := by
    rw [List.getD_eq_getElem?_getD, List.getElem?_mapIdx,
      List.getElem?_eq_getElem hc]
    rfl
  have hf2 : f < (out.data[c]).length := by rwa [hch] at hf
  rw [h1, hch]
  rw [getD_eq_getElem_of_lt _ _ _ (by simpa using hf2),
    getD_eq_getElem_of_lt _ _ _ hf2]
  simp

/-- The mixing fold sums the gain-scaled contributions of the non-muted
tracks on top of the initial buffer, at every in-range output sample. -/
theorem mix_fold_sampleAt (sr : ℕ) :
    ∀ (tracks : List Track) (out : AudioBuffer) (c f : ℕ),
      c < out.data.length → f < (out.data.getD c []).length →
      sampleAt (tracks.foldl (mixStep sr) out) c f =
        sampleAt out c f +
        ((tracks.filter (fun t => !t.isMuted)).map
          (fun t => t.volume * trackSampleAt t sr c f)).sum := by
  intro tracks
  induction tracks with
  | nil => intro out c f _ _; simp
  | cons t ts ih =>
    intro out c f hc hf
    rw [List.foldl_cons]
    obtain ⟨_, _, _, f4, f5⟩ := mixStep_fields sr out t
    have hc2 : c < (mixStep sr out t).data.length := by rw [f4]; exact hc
    have hf2 : f < ((mixStep sr out t).data.getD c []).length := by
      rw [f5]; exact hf
    rw [ih (mixStep sr out t) c f hc2 hf2]
    by_cases hm : t.isMuted
    · rw [List.filter_cons_of_neg (by simp [hm]),
        show mixStep sr out t = out from by unfold mixStep; rw [if_pos hm]]
    · rw [List.filter_cons_of_pos (by simp [hm]), List.map_cons, List.sum_cons,
        show mixStep sr out t = mixTrack out t sr from by
          unfold mixStep; rw [if_neg hm],
        mixTrack_sampleAt out t sr c f hc hf]
      ring

/-- The freshly allocated output of `renderMix` is silent everywhere. -/
theorem createBuffer_sampleAt (nc n sr c f : ℕ) :
    sampleAt (createBuffer nc n sr) c f = 0 := by
  unfold createBuffer sampleAt
  dsimp only
  by_cases hc : c < nc
  · rw [getD_eq_getElem_of_lt (List.replicate nc (List.replicate n 0)) [] c
      (by simpa using hc), List.getElem_replicate]
    by_cases hf : f < n
    · rw [getD_eq_getElem_of_lt _ _ _ (by simpa using hf), List.getElem_replicate]
    · rw [getD_eq_default_of_ge _ _ _ (by simpa using hf)]
  · rw [getD_eq_default_of_ge (List.replicate nc (List.replicate n 0)) [] c
      (by simpa using hc)]
    rfl

/-- C7: `renderMix(tracks, sampleRate)` fails with the empty-mix error iff
`tracks` is empty; otherwise it returns a stereo buffer of
`ceil((max end + 0.5) * sampleRate)` frames — the fold of the duration scan
is exactly the maximum of the track end times, bounded below by every track
and attained by one — in which every in-range sample is the sum, over the
non-muted tracks, of the track's sample at that position scaled by its
volume; muted tracks contribute nothing to any sample. -/
theorem renderMix_spec (tracks : List Track) (sampleRate : ℕ)
    (hst : ∀ t ∈ tracks, 0 ≤ t.startTime) :
    ((∃ msg, renderMix tracks sampleRate = .error msg) ↔ tracks = []) ∧
    (∀ out : AudioBuffer, renderMix tracks sampleRate = .ok out →
      out.numberOfChannels = 2 ∧
      out.sampleRate = sampleRate ∧
      out.length = (⌈(((tracks.map (fun t => t.startTime + t.buffer.duration)).foldr
          max 0 + 1 / 2) * (sampleRate : ℚ))⌉).toNat ∧
      (∀ t ∈ tracks, t.startTime + t.buffer.duration ≤
        (tracks.map (fun t => t.startTime + t.buffer.duration)).foldr max 0) ∧
      (∃ t ∈ tracks,
        (tracks.map (fun t => t.startTime + t.buffer.duration)).foldr max 0 =
          t.startTime + t.buffer.duration) ∧
      (∀ c f : ℕ, c < 2 → f < out.length →
        sampleAt out c f =
          ((tracks.filter (fun t => !t.isMuted)).map
            (fun t => t.volume * trackSampleAt t sampleRate c f)).sum)) := by
  have htd : tracks.foldl maxEndStep 0 + (0.5 : ℚ) =
      (tracks.map (fun t => t.startTime + t.buffer.duration)).foldr max 0 + 1 / 2 := by
    rw [foldl_maxEnd_eq tracks 0]
    norm_num
  constructor
  · unfold renderMix
    by_cases he : tracks.isEmpty
    · rw [if_pos he]
      have he2 : tracks = [] := by simpa [List.isEmpty_iff] using he
      exact ⟨fun _ => he2, fun _ => ⟨_, rfl⟩⟩
    · rw [if_neg he]
      have he2 : tracks ≠ [] := by simpa [List.isEmpty_iff] using he
      exact ⟨fun ⟨msg, hmsg⟩ => absurd hmsg (by simp), fun hcon => absurd hcon he2⟩
  · intro out hout
    by_cases he : tracks.isEmpty
    · unfold renderMix at hout
      rw [if_pos he] at hout
      simp at hout
    · have he2 : tracks ≠ [] := by simpa [List.isEmpty_iff] using he
      simp only [renderMix, if_neg he, Except.ok.injEq] at hout
      subst hout
      obtain ⟨s1, s2, s3⟩ := mix_fold_shape sampleRate tracks
        (createBuffer 2 ((⌈(tracks.foldl maxEndStep 0 + 0.5) *
          (sampleRate : ℚ)⌉).toNat) sampleRate)
      refine ⟨s1, s2, ?_, ?_, ?_, ?_⟩
      · rw [s3]
        unfold createBuffer
        rw [htd]
      · intro t ht
        exact le_foldr_max _ _ (List.mem_map_of_mem _ ht) 0
      · have h0 : ∀ x ∈ tracks.map (fun t => t.startTime + t.buffer.duration),
            0 ≤ x := by
          intro x hx
          obtain ⟨t, ht, rfl⟩ := List.mem_map.mp hx
          exact add_nonneg (hst t ht)
            (div_nonneg (Nat.cast_nonneg _) (Nat.cast_nonneg _))
        obtain ⟨x, hx, hfx⟩ := foldr_max_attained _ h0 (by simpa using he2)
        obtain ⟨t, ht, rfl⟩ := List.mem_map.mp hx
        exact ⟨t, ht, hfx⟩
      · intro c f hc hf
        have hc2 : c < (createBuffer 2 ((⌈(tracks.foldl maxEndStep 0 + 0.5) *
            (sampleRate : ℚ)⌉).toNat) sampleRate).data.length := by
          simp [createBuffer]
          omega
        have hf2 : f < ((createBuffer 2 ((⌈(tracks.foldl maxEndStep 0 + 0.5) *
            (sampleRate : ℚ)⌉).toNat) sampleRate).data.getD c []).length := by
          unfold createBuffer
          dsimp only
          rw [getD_eq_getElem_of_lt _ _ _ (by simpa using hc),
            List.getElem_replicate]
          rw [s3] at hf
          simpa [createBuffer] using hf
        rw [mix_fold_sampleAt sampleRate tracks _ c f hc2 hf2,
          createBuffer_sampleAt, zero_add]

/-- Closed instance of `renderMix_spec`: the two-track scenario mix is a
stereo buffer of `ceil((7 + 1/2) * 1) = 8` frames. -/
theorem renderMix_spec_witness :
    (∃ msg, renderMix [trackA, trackB] 1 = .error msg) ↔ [trackA, trackB] = [] :=
  (renderMix_spec [trackA, trackB] 1 (by
    intro t ht
    fin_cases ht <;> norm_num [trackA, trackB])).1

end DinoAudio
